import Mathlib

/-!
Verification development for the Constantine pseudo-constness analyzer.

The C++ sources (`ScopeAnalysis.cpp`, `ModuleAnalysis.cpp`) are shallowly
embedded below.  Clang AST nodes are modelled by the inductive `Expr`
(argument lists are a mutual inductive `ExprList` so that all recursions
are structural); `clang::QualType` is modelled by `Ty`; canonical
declarations by `Decl`.  The per-decl usage maps of the collectors are
flattened to lists of entries keyed by declaration, which preserves the
key-membership queries `WasChanged` / `WasReferenced` that the analysis
consumes.  Source ranges are represented by the expression node whose
range would be recorded.
-/

/-- Model of `clang::QualType`: const-qualification of the base type,
reference types, pointer types, and function prototype types with their
cv-qualifier (the only qualifier the analyzer consults is `const`). -/
inductive Ty where
  | base (id : Nat) (isConst : Bool)
  | ref (pointee : Ty)
  | ptr (pointee : Ty) (isConst : Bool)
  | funProto (constQual : Bool)
deriving DecidableEq, Repr

namespace Ty

/-- Model of `QualType::isReferenceType`. -/
def isReferenceType : Ty → Bool
  | .ref _ => true
  | _ => false

/-- Model of `QualType::isPointerType`. -/
def isPointerType : Ty → Bool
  | .ptr _ _ => true
  | _ => false

/-- Model of `QualType::isConstQualified` (reference types themselves are
never const-qualified). -/
def isConstQualified : Ty → Bool
  | .base _ c => c
  | .ref _ => false
  | .ptr _ c => c
  | .funProto _ => false

/-- Model of `QualType::getPointeeType`; on a non-reference non-pointer
type clang returns a null type, which the analyzer only reaches behind
the reference/pointer guard, so the default branch returns the type
itself. -/
def getPointeeType : Ty → Ty
  | .ref t => t
  | .ptr t _ => t
  | t => t

/-- Model of `QualType::getNonReferenceType`. -/
def getNonReferenceType : Ty → Ty
  | .ref t => t
  | t => t

end Ty

/-- Discriminator for the declaration kinds the analyzer distinguishes:
`clang::VarDecl` (locals and parameters), `clang::FieldDecl`, methods
(with their staticness, so that the claims about static member functions
can be stated), and every other declaration kind. -/
inductive DeclKind where
  | var
  | field
  | method (isStatic : Bool)
  | otherKind
deriving DecidableEq, Repr

/-- Model of a canonical `clang::DeclaratorDecl`: identity, declared type,
kind, and the `SourceManager::isFromMainFile` verdict of its location. -/
structure Decl where
  id : Nat
  ty : Ty
  kind : DeclKind
  fromMainFile : Bool
deriving DecidableEq, Repr

/-- Model of the `clang::FunctionDecl` returned by
`CallExpr::getDirectCallee`: its declaration identity and its declared
parameter types (`getParamDecl(i)->getType()`). -/
structure FnDecl where
  decl : Decl
  params : List Ty
deriving Repr

/-- Unary operator opcodes relevant to the analyzer: `UO_AddrOf`,
`UO_Deref`, the increment/decrement opcodes, and all other opcodes. -/
inductive UnOp where
  | addrOf
  | deref
  | incOp
  | decOp
  | otherOp
deriving DecidableEq, Repr

/-- Model of `UnaryOperator::isIncrementDecrementOp`. -/
def UnOp.isIncrementDecrementOp : UnOp → Bool
  | .incOp => true
  | .decOp => true
  | _ => false

mutual
/-- Shallow embedding of the clang expression/statement nodes the two
collectors of `ScopeAnalysis.cpp` inspect.  `declRef` is a
`DeclRefExpr` (with the expression's type), `thisE` is `CXXThisExpr`,
`member` is a `MemberExpr` (its only traversed child is the base; the
member declaration is not a child node), `cast` is a `CastExpr` with its
target type, `unary` a `UnaryOperator` with its result type, `assign` a
`BinaryOperator` with `isAssignmentOp()`, `binOther` any other binary
operator, `call` a `CallExpr` (direct callee if any, callee
subexpression, arguments), `construct` a `CXXConstructExpr` (constructor
parameter types and arguments), and `compound` any statement node that
merely contains children (e.g. `CompoundStmt`). -/
inductive Expr where
  | declRef (d : Decl) (ty : Ty)
  | thisE
  | member (base : Expr) (mem : Decl)
  | cast (ty : Ty) (sub : Expr)
  | unary (op : UnOp) (ty : Ty) (sub : Expr)
  | assign (lhs rhs : Expr)
  | binOther (lhs rhs : Expr)
  | call (callee : Option FnDecl) (fn : Expr) (args : ExprList)
  | construct (params : List Ty) (args : ExprList)
  | compound (stmts : ExprList)

/-- Argument/child lists of `Expr`, kept mutual so that every traversal
below is structurally recursive. -/
inductive ExprList where
  | nil
  | cons (head : Expr) (tail : ExprList)
end

namespace ExprList

/-- Length of an argument list (`CallExpr::getNumArgs`). -/
def length : ExprList → Nat
  | .nil => 0
  | .cons _ t => t.length + 1

/-- Indexing into an argument list (`CallExpr::getArg`). -/
def get? : ExprList → Nat → Option Expr
  | .nil, _ => none
  | .cons h _, 0 => some h
  | .cons _ t, n + 1 => t.get? n

end ExprList

/-- A recorded usage: the type through which the variable was observed
(`UsageRef.first`, possibly still null) and the source range, represented
by the expression whose full range is recorded (`UsageRef.second`). -/
structure UsageRef where
  ty : Option Ty
  range : Expr

/-- One entry of a flattened `ScopeAnalysis::UsageRefsMap`: the key
declaration together with its `UsageRef`. -/
structure UsageEntry where
  var : Decl
  ty : Option Ty
  range : Expr

/-- Working state of `UsageExtractor`: `Result.first` (the declaration
found so far) and `Result.second.first` (the working type). -/
structure ExtractSt where
  var : Option Decl
  ty : Option Ty

/-- Model of `UsageExtractor::SetType`: the working type is only set when
it is still empty (first source wins). -/
def setType (cur : Option Ty) (t : Ty) : Option Ty :=
  match cur with
  | none => some t
  | some u => some u

/-- Model of `UsageExtractor::SetVariable`: overwrites the current result
whenever the referenced declaration is a `VarDecl` or a `FieldDecl`
(every later reference wins); other declaration kinds are ignored. -/
def setVariable (cur : Option Decl) (d : Decl) : Option Decl :=
  match d.kind with
  | .var => some d
  | .field => some d
  | _ => cur

mutual
/-- The traversal of `UsageExtractor` (a `RecursiveASTVisitor`): pre-order
over the whole subtree, firing `VisitDeclRefExpr`, `VisitCastExpr` and
`VisitUnaryOperator` on the matching nodes and threading the working
state through all children. -/
def extractGo : Expr → ExtractSt → ExtractSt
  | .declRef d ty, st => ⟨setVariable st.var d, setType st.ty ty⟩
  | .thisE, st => st
  | .member base _, st => extractGo base st
  | .cast ty sub, st => extractGo sub ⟨st.var, setType st.ty ty⟩
  | .unary op ty sub, st =>
      match op with
      | .addrOf => extractGo sub ⟨st.var, setType st.ty ty⟩
      | .deref => extractGo sub ⟨st.var, setType st.ty ty⟩
      | _ => extractGo sub st
  | .assign l r, st => extractGo r (extractGo l st)
  | .binOther l r, st => extractGo r (extractGo l st)
  | .call _ fn args, st => extractGoList args (extractGo fn st)
  | .construct _ args, st => extractGoList args st
  | .compound xs, st => extractGoList xs st

/-- Pre-order traversal of a child list for `extractGo`. -/
def extractGoList : ExprList → ExtractSt → ExtractSt
  | .nil, st => st
  | .cons e es, st => extractGoList es (extractGo e st)
end

/-- The result of `UsageExtractor::GetUsage`: the declaration and working
type found by the walk, with the source range set to the range of the
outer expression afterwards. -/
structure Usage where
  var : Option Decl
  ty : Option Ty
  range : Expr

/-- Model of `UsageExtractor::GetUsage`. -/
def getUsage (e : Expr) : Usage :=
  let st := extractGo e ⟨none, none⟩
  ⟨st.var, st.ty, e⟩

/-- Model of `UsageRefCollector::AddToResults`: an entry is appended only
when the extractor bound a declaration; with a null declaration nothing
is emitted. -/
def addToResults (u : Usage) : List UsageEntry :=
  match u.var with
  | some vd => [⟨vd, u.ty, u.range⟩]
  | none => []

/-- Model of `VariableChangeCollector::IsNonConstReferenced`. -/
def IsNonConstReferenced (t : Ty) : Bool :=
  (t.isReferenceType || t.isPointerType) && !(t.getPointeeType.isConstQualified)

/-- One iteration of the parameter loop of
`VariableChangeCollector::VisitCallExpr`: parameter `i` is paired with
argument `i`; when the parameter type is a non-const reference/pointer the
argument's usage is recorded with its type replaced by the parameter's
pointee type. -/
def callArgChange (f : FnDecl) (args : ExprList) (i : Nat) : List UsageEntry :=
  match args.get? i, f.params.get? i with
  | some a, some p =>
      if IsNonConstReferenced p then
        addToResults { getUsage a with ty := some p.getPointeeType }
      else []
  | _, _ => []

/-- The whole parameter loop of `VariableChangeCollector::VisitCallExpr`,
running over indices below `min(getNumArgs, getNumParams)`. -/
def callNodeChanges (f : FnDecl) (args : ExprList) : List UsageEntry :=
  (List.range (min args.length f.params.length)).flatMap (callArgChange f args)

/-- The test of `VariableChangeCollector::VisitMemberExpr`: the member's
canonical type is a function prototype whose qualifiers lack `const`. -/
def memberMutationTest : Ty → Bool
  | .funProto c => !c
  | _ => false

mutual
/-- The traversal of `VariableChangeCollector`: pre-order over the whole
subtree, emitting the change entries of `VisitBinaryOperator`,
`VisitUnaryOperator`, `VisitMemberExpr` and `VisitCallExpr` at each node
before descending into the children.  There is no visitor for
`CXXConstructExpr`, so a `construct` node only contributes the changes
found inside its arguments. -/
def changeGo : Expr → List UsageEntry
  | .declRef _ _ => []
  | .thisE => []
  | .member base mem =>
      (if memberMutationTest mem.ty
         then addToResults (getUsage (.member base mem)) else [])
        ++ changeGo base
  | .cast _ sub => changeGo sub
  | .unary op _ sub =>
      (if op.isIncrementDecrementOp then addToResults (getUsage sub) else [])
        ++ changeGo sub
  | .assign l r => addToResults (getUsage l) ++ (changeGo l ++ changeGo r)
  | .binOther l r => changeGo l ++ changeGo r
  | .call callee fn args =>
      (match callee with
       | some f => callNodeChanges f args
       | none => []) ++ (changeGo fn ++ changeGoList args)
  | .construct _ args => changeGoList args
  | .compound xs => changeGoList xs

/-- Pre-order traversal of a child list for `changeGo`. -/
def changeGoList : ExprList → List UsageEntry
  | .nil => []
  | .cons e es => changeGo e ++ changeGoList es
end

mutual
/-- The traversal of `VariableAccessCollector`: pre-order over the whole
subtree; its only visitor is `VisitDeclRefExpr`, which runs the usage
extractor on the reference expression itself.  No other node kind (in
particular no `MemberExpr`, whatever its base) emits a use. -/
def accessGo : Expr → List UsageEntry
  | .declRef d ty => addToResults (getUsage (.declRef d ty))
  | .thisE => []
  | .member base _ => accessGo base
  | .cast _ sub => accessGo sub
  | .unary _ _ sub => accessGo sub
  | .assign l r => accessGo l ++ accessGo r
  | .binOther l r => accessGo l ++ accessGo r
  | .call _ fn args => accessGo fn ++ accessGoList args
  | .construct _ args => accessGoList args
  | .compound xs => accessGoList xs

/-- Pre-order traversal of a child list for `accessGo`. -/
def accessGoList : ExprList → List UsageEntry
  | .nil => []
  | .cons e es => accessGo e ++ accessGoList es
end

/-- Result of `ScopeAnalysis::AnalyseThis`: the flattened `Changed` and
`Used` maps produced by the two collector traversals of one body. -/
structure ScopeAnalysis where
  Changed : List UsageEntry
  Used : List UsageEntry

namespace ScopeAnalysis

/-- Model of `ScopeAnalysis::AnalyseThis`. -/
def AnalyseThis (s : Expr) : ScopeAnalysis :=
  ⟨changeGo s, accessGo s⟩

/-- Model of `ScopeAnalysis::WasChanged`: key membership in the changed
map. -/
def WasChanged (a : ScopeAnalysis) (d : Decl) : Bool :=
  a.Changed.any (fun u => u.var == d)

/-- Model of `ScopeAnalysis::WasReferenced`: key membership in the used
map. -/
def WasReferenced (a : ScopeAnalysis) (d : Decl) : Bool :=
  a.Used.any (fun u => u.var == d)

end ScopeAnalysis

/-- Model of `PseudoConstnessAnalysisState::IsConst`: const-qualification
of the declared non-reference type. -/
def IsConst (d : Decl) : Bool :=
  d.ty.getNonReferenceType.isConstQualified

/-- Model of the module-scoped `PseudoConstnessAnalysisState`: the
`Candidates` set and the `Changed` (disqualified) set. -/
structure PseudoConstnessAnalysisState where
  Candidates : Finset Decl
  Changed : Finset Decl

/-- The initial state built by the `PseudoConstnessAnalysisState`
constructor: both sets empty. -/
def initState : PseudoConstnessAnalysisState := ⟨∅, ∅⟩

/-- Model of `PseudoConstnessAnalysisState::Eval`.  `GetReferedVariables`
lives in `DeclarationCollector.cpp`, which is not part of the sources at
hand, so the referred-variables relation is a parameter; `RegisterChange`
applied to each referred variable amounts to removing them all from
`Candidates` and inserting them all into `Changed`. -/
def Eval (referred : Decl → Finset Decl) (s : PseudoConstnessAnalysisState)
    (A : ScopeAnalysis) (v : Decl) : PseudoConstnessAnalysisState :=
  if A.WasChanged v then
    ⟨s.Candidates \ referred v, s.Changed ∪ referred v⟩
  else if v ∈ s.Changed then s
  else if IsConst v then s
  else ⟨insert v s.Candidates, s.Changed⟩

/-- Folding `Eval` over a sequence of (scope summary, variable) events, as
`AnalyseVariableUsage` does while walking the translation unit. -/
def foldEval (referred : Decl → Finset Decl)
    (L : List (ScopeAnalysis × Decl)) (s : PseudoConstnessAnalysisState) :
    PseudoConstnessAnalysisState :=
  L.foldl (fun st p => Eval referred st p.1 p.2) s

/-- Some event of the list disqualifies `v`: a summary in which the
evaluated declaration was changed, with `v` among its referred
variables. -/
def disqBy (referred : Decl → Finset Decl)
    (L : List (ScopeAnalysis × Decl)) (v : Decl) : Prop :=
  ∃ p ∈ L, p.1.WasChanged p.2 = true ∧ v ∈ referred p.2

/-- Some event of the list evaluates `v` under a summary that did not
change it. -/
def seenClean (L : List (ScopeAnalysis × Decl)) (v : Decl) : Prop :=
  ∃ p ∈ L, p.2 = v ∧ p.1.WasChanged v = false

/-- Model of a `clang::CXXMethodDecl` as consumed by
`AnalyseVariableUsage::OnCXXMethodDecl`: the queried predicates plus the
kind discriminators behind the `dyn_cast` tests of `IsJustAMethod`. -/
structure CXXMethodDecl where
  decl : Decl
  isVirtual : Bool
  isStatic : Bool
  isConst : Bool
  isUserProvided : Bool
  isCopyAssignment : Bool
  isConstructor : Bool
  isDestructor : Bool
  isConversion : Bool

/-- Model of `IsJustAMethod` from `ModuleAnalysis.cpp`. -/
def IsJustAMethod (F : CXXMethodDecl) : Bool :=
  F.isUserProvided && !F.isVirtual && !F.isCopyAssignment
    && !F.isConstructor && !F.isConversion && !F.isDestructor

/-- Model of `AnalyseVariableUsage::IsMutatingMethod`. -/
def IsMutatingMethod (m : CXXMethodDecl) : Bool :=
  !m.isStatic && !m.isConst

/-- Model of `AnalyseVariableUsage::IsMemberMethod`. -/
def IsMemberMethod (m : CXXMethodDecl) : Bool :=
  !m.isStatic

namespace IsCXXThisExpr

mutual
/-- Modelled from the spec: `IsCXXThisExpr.hpp` is not among the sources
at hand; per the spec, `bodyMentionsEnclosingInstance(B)` is true iff any
subexpression of `B` is syntactically the enclosing-instance expression
(including implicit member accesses whose base is the
enclosing-instance, which this embedding represents as `member` nodes
with a `thisE` base). -/
def Check : Expr → Bool
  | .thisE => true
  | .declRef _ _ => false
  | .member base _ => Check base
  | .cast _ sub => Check sub
  | .unary _ _ sub => Check sub
  | .assign l r => Check l || Check r
  | .binOther l r => Check l || Check r
  | .call _ fn args => Check fn || checkList args
  | .construct _ args => checkList args
  | .compound xs => checkList xs

/-- Modelled from the spec: list part of `IsCXXThisExpr.Check`. -/
def checkList : ExprList → Bool
  | .nil => false
  | .cons e es => Check e || checkList es
end

end IsCXXThisExpr

/-- Which candidate set (if any) `OnCXXMethodDecl` inserts the visited
method into. -/
inductive MethodOutcome where
  | noCandidate
  | constCandidate
  | staticCandidate
deriving DecidableEq, Repr

/-- Model of the method-classification part of
`AnalyseVariableUsage::OnCXXMethodDecl` (lines 270-301): the outer guard,
the two mutation counts, and the static/const candidate decision.  The
member variables of the record (`GetMemberVariablesAndReferences`) and
its methods (`GetMethodsFromRecord`) come from the absent
`DeclarationCollector.cpp` and are therefore taken as arguments. -/
def OnCXXMethodDecl (F : CXXMethodDecl) (body : Expr)
    (members : List Decl) (peers : List CXXMethodDecl) : MethodOutcome :=
  if !F.isVirtual && !F.isStatic && F.isUserProvided && IsJustAMethod F then
    let Analysis := ScopeAnalysis.AnalyseThis body
    let MemberChanges :=
      (members.filter (fun v => Analysis.WasChanged v)).length
    let FunctionChanges :=
      ((peers.filter IsMutatingMethod).filter
        (fun m => Analysis.WasReferenced m.decl)).length
    if MemberChanges == 0 && FunctionChanges == 0 then
      let MemberAccess :=
        (members.filter (fun v => Analysis.WasReferenced v)).length
      let FunctionAccess :=
        ((peers.filter IsMemberMethod).filter
          (fun m => Analysis.WasReferenced m.decl)).length
      if MemberAccess == 0 && FunctionAccess == 0
          && !(IsCXXThisExpr.Check body) then
        .staticCandidate
      else if !F.isConst then
        .constCandidate
      else
        .noCandidate
    else
      .noCandidate
  else
    .noCandidate

/-- The diagnostic messages emitted in pseudo-const mode. -/
inductive DiagMsg where
  | varConst
  | funcConst
  | funcStatic
deriving DecidableEq, Repr

/-- Model of `PseudoConstnessAnalysisState::GenerateReports`: one
"variable could be declared as const" warning per candidate whose
location is in the main file (`IsItFromMainModule`). -/
def GenerateReports (cands : Finset Decl) : Finset (Decl × DiagMsg) :=
  (cands.filter (fun d => d.fromMainFile = true)).image (fun d => (d, .varConst))

/-- Model of `AnalyseVariableUsage::Dump`, the translation-unit-exit
report of pseudo-const mode: variable candidates via `GenerateReports`,
then the const- and static-candidate methods, each filtered by
`IsItFromMainModule`. -/
def Dump (st : PseudoConstnessAnalysisState)
    (constCands staticCands : Finset Decl) : Finset (Decl × DiagMsg) :=
  GenerateReports st.Candidates
    ∪ (constCands.filter (fun d => d.fromMainFile = true)).image
        (fun d => (d, .funcConst))
    ∪ (staticCands.filter (fun d => d.fromMainFile = true)).image
        (fun d => (d, .funcStatic))

/-- Whether a declaration is one of the two kinds the usage extractor
binds (`VarDecl` or `FieldDecl`). -/
def isVarOrField (d : Decl) : Bool :=
  match d.kind with
  | .var => true
  | .field => true
  | _ => false

mutual
/-- Characterization predicate: the expression contains a direct
variable reference (`declRef`) to `d`, where `d` is a variable or data
member. -/
def mentionsVarRef : Expr → Decl → Bool
  | .declRef d' _, d => d' == d && isVarOrField d'
  | .thisE, _ => false
  | .member base _, d => mentionsVarRef base d
  | .cast _ sub, d => mentionsVarRef sub d
  | .unary _ _ sub, d => mentionsVarRef sub d
  | .assign l r, d => mentionsVarRef l d || mentionsVarRef r d
  | .binOther l r, d => mentionsVarRef l d || mentionsVarRef r d
  | .call _ fn args, d => mentionsVarRef fn d || mentionsVarRefList args d
  | .construct _ args, d => mentionsVarRefList args d
  | .compound xs, d => mentionsVarRefList xs d

/-- List part of `mentionsVarRef`. -/
def mentionsVarRefList : ExprList → Decl → Bool
  | .nil, _ => false
  | .cons e es, d => mentionsVarRef e d || mentionsVarRefList es d
end

mutual
/-- The variable/data-member references of an expression in pre-order
(the order in which the extractor's traversal encounters them). -/
def varRefList : Expr → List Decl
  | .declRef d _ => if isVarOrField d then [d] else []
  | .thisE => []
  | .member base _ => varRefList base
  | .cast _ sub => varRefList sub
  | .unary _ _ sub => varRefList sub
  | .assign l r => varRefList l ++ varRefList r
  | .binOther l r => varRefList l ++ varRefList r
  | .call _ fn args => varRefList fn ++ varRefListL args
  | .construct _ args => varRefListL args
  | .compound xs => varRefListL xs

/-- List part of `varRefList`. -/
def varRefListL : ExprList → List Decl
  | .nil => []
  | .cons e es => varRefList e ++ varRefListL es
end

mutual
/-- The variable/data-member references of an expression paired with
their depth below the root, in pre-order; used to state what the
"deepest" reference of an expression is. -/
def varRefDepths : Expr → Nat → List (Decl × Nat)
  | .declRef d _, n => if isVarOrField d then [(d, n)] else []
  | .thisE, _ => []
  | .member base _, n => varRefDepths base (n + 1)
  | .cast _ sub, n => varRefDepths sub (n + 1)
  | .unary _ _ sub, n => varRefDepths sub (n + 1)
  | .assign l r, n => varRefDepths l (n + 1) ++ varRefDepths r (n + 1)
  | .binOther l r, n => varRefDepths l (n + 1) ++ varRefDepths r (n + 1)
  | .call _ fn args, n => varRefDepths fn (n + 1) ++ varRefDepthsL args (n + 1)
  | .construct _ args, n => varRefDepthsL args (n + 1)
  | .compound xs, n => varRefDepthsL xs (n + 1)

/-- List part of `varRefDepths`. -/
def varRefDepthsL : ExprList → Nat → List (Decl × Nat)
  | .nil, _ => []
  | .cons e es, n => varRefDepths e n ++ varRefDepthsL es n
end

mutual
/-- The type sources of an expression in pre-order: a cast's target
type, an address-of or dereference operator's result type, and a
variable reference's own type, in the order the extractor's traversal
encounters them. -/
def typeSources : Expr → List Ty
  | .declRef _ ty => [ty]
  | .thisE => []
  | .member base _ => typeSources base
  | .cast ty sub => ty :: typeSources sub
  | .unary op ty sub =>
      match op with
      | .addrOf => ty :: typeSources sub
      | .deref => ty :: typeSources sub
      | _ => typeSources sub
  | .assign l r => typeSources l ++ typeSources r
  | .binOther l r => typeSources l ++ typeSources r
  | .call _ fn args => typeSources fn ++ typeSourcesL args
  | .construct _ args => typeSourcesL args
  | .compound xs => typeSourcesL xs

/-- List part of `typeSources`. -/
def typeSourcesL : ExprList → List Ty
  | .nil => []
  | .cons e es => typeSources e ++ typeSourcesL es
end

/-- Fold a boolean predicate over an argument list. -/
def ExprList.any (p : Expr → Bool) : ExprList → Bool
  | .nil => false
  | .cons e es => p e || ExprList.any p es

/-! Concrete inputs used by the counterexamples and witnesses below. -/

/-- A plain non-const scalar type. -/
def intTy : Ty := .base 0 false

/-- A non-static data member of the enclosing record. -/
def exFld : Decl := ⟨1, intTy, .field, true⟩

/-- A local variable passed to a constructor taking a non-const
reference. -/
def exCtorArg : Decl := ⟨2, intTy, .var, true⟩

/-- Direct-initialization `S s(arg)` of an object whose constructor takes
`int &`. -/
def exCtorCall : Expr :=
  .construct [Ty.ref intTy] (.cons (.declRef exCtorArg intTy) .nil)

/-- The object of a member operator call. -/
def exObj : Decl := ⟨3, Ty.base 1 false, .var, true⟩

/-- The explicit right-hand argument of a member operator call. -/
def exRhs : Decl := ⟨4, intTy, .var, true⟩

/-- A member operator function declaration. -/
def exOperator : Decl := ⟨5, Ty.funProto false, .method false, true⟩

/-- The callee of the operator call: one declared parameter `int &`. -/
def exOpFn : FnDecl := ⟨exOperator, [Ty.ref intTy]⟩

/-- Argument list of the desugared member operator call: the object at
position 0, then the declared argument. -/
def exOpCallArgs : ExprList :=
  .cons (.declRef exObj (Ty.base 1 false)) (.cons (.declRef exRhs intTy) .nil)

/-- A member operator call desugared to a free-form call. -/
def exOpCall : Expr :=
  .call (some exOpFn) (.declRef exOperator (Ty.funProto false)) exOpCallArgs

/-- A static member function (its function type carries no const
qualifier). -/
def exStaticMethod : Decl := ⟨6, Ty.funProto false, .method true, true⟩

/-- Callee view of the static member function. -/
def exStaticFn : FnDecl := ⟨exStaticMethod, []⟩

/-- The object through which the static member function is invoked. -/
def exObj2 : Decl := ⟨7, Ty.base 1 false, .var, true⟩

/-- Invoking a static member function through a member access
expression, `obj.staticFn()`. -/
def exStaticCall : Expr :=
  .call (some exStaticFn)
    (.member (.declRef exObj2 (Ty.base 1 false)) exStaticMethod) .nil

/-- A variable referenced deep inside the left subexpression. -/
def exDeep : Decl := ⟨8, intTy, .var, true⟩

/-- A variable referenced at depth one in the right subexpression. -/
def exShallow : Decl := ⟨9, intTy, .var, true⟩

/-- An expression whose deepest variable reference (`exDeep`, below a
cast) differs from its last pre-order variable reference
(`exShallow`). -/
def exLastWins : Expr :=
  .binOther (.cast (Ty.base 2 false) (.declRef exDeep intTy))
    (.declRef exShallow intTy)

/-- An extractor result that bound no declaration. -/
def exEmptyUsage : Usage := ⟨none, none, .thisE⟩

/-- Referred-variables relation where each declaration is its own single
referent (the behaviour the spec gives for non-reference
declarations). -/
def referredSelf : Decl → Finset Decl := fun d => {d}

/-- A const-qualified variable that some summary also mutates. -/
def exConstVar : Decl := ⟨10, Ty.base 0 true, .var, true⟩

/-- A summary whose changed map holds `exConstVar`. -/
def exChangedSummary : ScopeAnalysis := ⟨[⟨exConstVar, none, .thisE⟩], []⟩

/-- A single-event sequence mutating `exConstVar`. -/
def exEvents : List (ScopeAnalysis × Decl) := [(exChangedSummary, exConstVar)]

/-- A non-const variable mutated by `exMutSummaryA`. -/
def exVarA : Decl := ⟨11, intTy, .var, true⟩

/-- A non-const variable evaluated under a clean summary. -/
def exVarB : Decl := ⟨12, intTy, .var, true⟩

/-- A summary mutating `exVarA`. -/
def exMutSummaryA : ScopeAnalysis := ⟨[⟨exVarA, none, .thisE⟩], []⟩

/-- A summary with empty changed and used maps. -/
def exCleanSummary : ScopeAnalysis := ⟨[], []⟩

/-- A plain, user-provided, non-virtual, non-static, non-const method. -/
def exMethod : CXXMethodDecl :=
  ⟨⟨13, Ty.funProto false, .method false, true⟩,
    false, false, false, true, false, false, false, false⟩

/-- A candidate variable located outside the main file. -/
def exOutside : Decl := ⟨14, intTy, .var, false⟩

/-- A candidate variable located in the main file. -/
def exInside : Decl := ⟨15, intTy, .var, true⟩

/-- A final analysis state holding both candidates. -/
def exState : PseudoConstnessAnalysisState := ⟨{exInside, exOutside}, ∅⟩

/-- A non-const variable that no summary ever mentions. -/
def exUnused : Decl := ⟨16, intTy, .var, true⟩

/-- The extractor records the range of the outer expression it was handed
(`Result.second.second = Expr.getSourceRange()`). -/
@[simp] theorem getUsage_range (e : Expr) : (getUsage e).range = e := rfl

/-- Key membership of an `AddToResults` emission: an entry for `d` is
present iff the extractor bound exactly `d`. -/
theorem addToResults_any (u : Usage) (d : Decl) :
    ((addToResults u).any fun x => x.var == d) = (u.var == some d) := by
  cases h : u.var <;> simp [addToResults, h]

mutual
/-- The access traversal registers exactly the declarations that occur as
direct variable references: key membership in the used map coincides
with `mentionsVarRef`. -/
theorem accessGo_any : ∀ (e : Expr) (d : Decl),
    ((accessGo e).any fun u => u.var == d) = mentionsVarRef e d
  | .declRef d' ty, d => by
      cases hk : d'.kind <;>
        simp [accessGo, mentionsVarRef, getUsage, extractGo, setVariable,
          setType, addToResults, isVarOrField, hk, Bool.and_comm]
  | .thisE, d => rfl
  | .member base _, d => by
      simpa [accessGo, mentionsVarRef] using accessGo_any base d
  | .cast _ sub, d => by
      simpa [accessGo, mentionsVarRef] using accessGo_any sub d
  | .unary _ _ sub, d => by
      simpa [accessGo, mentionsVarRef] using accessGo_any sub d
  | .assign l r, d => by
      simp [accessGo, mentionsVarRef, List.any_append, accessGo_any l d,
        accessGo_any r d]
  | .binOther l r, d => by
      simp [accessGo, mentionsVarRef, List.any_append, accessGo_any l d,
        accessGo_any r d]
  | .call _ fn args, d => by
      simp [accessGo, mentionsVarRef, List.any_append, accessGo_any fn d,
        accessGoList_any args d]
  | .construct _ args, d => by
      simpa [accessGo, mentionsVarRef] using accessGoList_any args d
  | .compound xs, d => by
      simpa [accessGo, mentionsVarRef] using accessGoList_any xs d

/-- List part of `accessGo_any`. -/
theorem accessGoList_any : ∀ (es : ExprList) (d : Decl),
    ((accessGoList es).any fun u => u.var == d) = mentionsVarRefList es d
  | .nil, d => rfl
  | .cons e es, d => by
      simp [accessGoList, mentionsVarRefList, List.any_append,
        accessGo_any e d, accessGoList_any es d]
end

/-- Key membership in the change entries of an argument list is the
disjunction of key membership in the change entries of each argument. -/
theorem changeGoList_any : ∀ (es : ExprList) (d : Decl),
    ((changeGoList es).any fun u => u.var == d)
      = es.any (fun e => (changeGo e).any fun u => u.var == d)
  | .nil, _ => rfl
  | .cons e es, d => by
      simp [changeGoList, ExprList.any, List.any_append, changeGoList_any es d]

/-- Membership in the emissions of the parameter loop of `VisitCallExpr`:
every emitted entry comes from some index `i` below
`min(numArgs, numParams)` whose parameter is a non-const
reference/pointer, names the declaration the extractor binds for
argument `i`, and carries the parameter's pointee type; and conversely
every such index emits its entry. -/
theorem mem_callNodeChanges (f : FnDecl) (args : ExprList) (x : UsageEntry) :
    x ∈ callNodeChanges f args ↔
      ∃ i a p, i < min args.length f.params.length
        ∧ args.get? i = some a ∧ f.params.get? i = some p
        ∧ IsNonConstReferenced p = true
        ∧ (getUsage a).var = some x.var ∧ x.ty = some p.getPointeeType
        ∧ x.range = a := by
  have harg : ∀ i a p, args.get? i = some a → f.params.get? i = some p →
      callArgChange f args i =
        if IsNonConstReferenced p then
          addToResults { getUsage a with ty := some p.getPointeeType }
        else [] := by
    intro i a p ha hp
    unfold callArgChange
    rw [ha, hp]
  constructor
  · intro hx
    rcases List.mem_flatMap.mp hx with ⟨i, hi, hxi⟩
    refine ⟨i, ?_⟩
    rcases ha : args.get? i with _ | a
    · unfold callArgChange at hxi; rw [ha] at hxi; simp at hxi
    rcases hp : f.params.get? i with _ | p
    · unfold callArgChange at hxi; rw [ha, hp] at hxi; simp at hxi
    rw [harg i a p ha hp] at hxi
    by_cases hnc : IsNonConstReferenced p
    · rw [if_pos hnc] at hxi
      rcases hv : (getUsage a).var with _ | vd
      · simp [addToResults, hv] at hxi
      · refine ⟨a, p, List.mem_range.mp hi, rfl, rfl, hnc, ?_⟩
        simp [addToResults, hv] at hxi
        subst hxi
        simp [hv]
    · rw [if_neg hnc] at hxi; simp at hxi
  · rintro ⟨i, a, p, hilt, ha, hp, hnc, hv, hty, hrange⟩
    refine List.mem_flatMap.mpr ⟨i, List.mem_range.mpr hilt, ?_⟩
    rw [harg i a p ha hp, if_pos hnc]
    rcases x with ⟨xv, xty, xr⟩
    simp only at hv hty hrange
    simp [addToResults, hv, hty, hrange]

/-- `SetType` keeps an already-set working type and fills an empty one. -/
theorem setType_eq (c : Option Ty) (t : Ty) : setType c t = c.or (some t) := by
  cases c <;> rfl

mutual
/-- The declaration component of the extractor state after a walk: the
last variable reference of the pre-order traversal wins, and the
incoming value is kept only when the subtree holds no reference. -/
theorem extractVar_go : ∀ (e : Expr) (st : ExtractSt),
    (extractGo e st).var = ((varRefList e).getLast?).or st.var
  | .declRef d' ty, st => by
      cases hk : d'.kind <;>
        simp [extractGo, varRefList, setVariable, isVarOrField, hk]
  | .thisE, st => rfl
  | .member base _, st => by
      simpa [extractGo, varRefList] using extractVar_go base st
  | .cast ty sub, st => by
      simpa [extractGo, varRefList] using extractVar_go sub ⟨st.var, setType st.ty ty⟩
  | .unary op ty sub, st => by
      cases op <;>
        simp [extractGo, varRefList, extractVar_go sub]
  | .assign l r, st => by
      simp [extractGo, varRefList, extractVar_go l st,
        extractVar_go r (extractGo l st), List.getLast?_append, Option.or_assoc]
  | .binOther l r, st => by
      simp [extractGo, varRefList, extractVar_go l st,
        extractVar_go r (extractGo l st), List.getLast?_append, Option.or_assoc]
  | .call _ fn args, st => by
      simp [extractGo, varRefList, extractVar_go fn st,
        extractVar_goList args (extractGo fn st), List.getLast?_append,
        Option.or_assoc]
  | .construct _ args, st => by
      simpa [extractGo, varRefList] using extractVar_goList args st
  | .compound xs, st => by
      simpa [extractGo, varRefList] using extractVar_goList xs st

/-- List part of `extractVar_go`. -/
theorem extractVar_goList : ∀ (es : ExprList) (st : ExtractSt),
    (extractGoList es st).var = ((varRefListL es).getLast?).or st.var
  | .nil, st => rfl
  | .cons e es, st => by
      simp [extractGoList, varRefListL, extractVar_go e st,
        extractVar_goList es (extractGo e st), List.getLast?_append,
        Option.or_assoc]
end

mutual
/-- The type component of the extractor state after a walk: an incoming
working type is never overwritten, and otherwise the first type source
of the pre-order traversal wins. -/
theorem extractTy_go : ∀ (e : Expr) (st : ExtractSt),
    (extractGo e st).ty = st.ty.or (typeSources e).head?
  | .declRef d' ty, st => by
      cases hk : d'.kind <;>
        simp [extractGo, typeSources, setVariable, setType_eq, hk]
  | .thisE, st => by simp [extractGo, typeSources]
  | .member base _, st => by
      simpa [extractGo, typeSources] using extractTy_go base st
  | .cast ty sub, st => by
      simp [extractGo, typeSources, extractTy_go sub, setType_eq,
        Option.or_assoc]
  | .unary op ty sub, st => by
      cases op <;>
        simp [extractGo, typeSources, extractTy_go sub, setType_eq,
          Option.or_assoc]
  | .assign l r, st => by
      simp [extractGo, typeSources, extractTy_go l st,
        extractTy_go r (extractGo l st), List.head?_append, Option.or_assoc]
  | .binOther l r, st => by
      simp [extractGo, typeSources, extractTy_go l st,
        extractTy_go r (extractGo l st), List.head?_append, Option.or_assoc]
  | .call _ fn args, st => by
      simp [extractGo, typeSources, extractTy_go fn st,
        extractTy_goList args (extractGo fn st), List.head?_append,
        Option.or_assoc]
  | .construct _ args, st => by
      simpa [extractGo, typeSources] using extractTy_goList args st
  | .compound xs, st => by
      simpa [extractGo, typeSources] using extractTy_goList xs st

/-- List part of `extractTy_go`. -/
theorem extractTy_goList : ∀ (es : ExprList) (st : ExtractSt),
    (extractGoList es st).ty = st.ty.or (typeSourcesL es).head?
  | .nil, st => by simp [extractGoList, typeSourcesL]
  | .cons e es, st => by
      simp [extractGoList, typeSourcesL, extractTy_go e st,
        extractTy_goList es (extractGo e st), List.head?_append,
        Option.or_assoc]
end

/-- The `Changed` component of one `Eval` step. -/
theorem Eval_Changed (referred : Decl → Finset Decl)
    (s : PseudoConstnessAnalysisState) (A : ScopeAnalysis) (v : Decl) :
    (Eval referred s A v).Changed =
      if A.WasChanged v then s.Changed ∪ referred v else s.Changed := by
  unfold Eval; split_ifs <;> rfl

/-- The `Candidates` component of one `Eval` step. -/
theorem Eval_Candidates (referred : Decl → Finset Decl)
    (s : PseudoConstnessAnalysisState) (A : ScopeAnalysis) (v : Decl) :
    (Eval referred s A v).Candidates =
      if A.WasChanged v then s.Candidates \ referred v
      else if v ∈ s.Changed then s.Candidates
      else if IsConst v then s.Candidates
      else insert v s.Candidates := by
  unfold Eval; split_ifs <;> rfl

@[simp] theorem foldEval_nil (referred : Decl → Finset Decl)
    (s : PseudoConstnessAnalysisState) : foldEval referred [] s = s := rfl

theorem foldEval_cons (referred : Decl → Finset Decl)
    (p : ScopeAnalysis × Decl) (L : List (ScopeAnalysis × Decl))
    (s : PseudoConstnessAnalysisState) :
    foldEval referred (p :: L) s
      = foldEval referred L (Eval referred s p.1 p.2) := rfl

@[simp] theorem disqBy_nil (referred : Decl → Finset Decl) (v : Decl) :
    disqBy referred [] v ↔ False := by simp [disqBy]

@[simp] theorem disqBy_cons (referred : Decl → Finset Decl)
    (p : ScopeAnalysis × Decl) (L : List (ScopeAnalysis × Decl)) (v : Decl) :
    disqBy referred (p :: L) v ↔
      (p.1.WasChanged p.2 = true ∧ v ∈ referred p.2) ∨ disqBy referred L v := by
  simp [disqBy]

@[simp] theorem seenClean_nil (v : Decl) : seenClean [] v ↔ False := by
  simp [seenClean]

@[simp] theorem seenClean_cons (p : ScopeAnalysis × Decl)
    (L : List (ScopeAnalysis × Decl)) (v : Decl) :
    seenClean (p :: L) v ↔
      (p.2 = v ∧ p.1.WasChanged v = false) ∨ seenClean L v := by
  simp [seenClean]

/-- Closed form of the disqualified set after folding any event sequence:
a declaration is disqualified iff it was already, or some event changes a
declaration referring to it.  Membership only depends on which events
occur, not on their order. -/
theorem mem_Changed_foldEval (referred : Decl → Finset Decl)
    (L : List (ScopeAnalysis × Decl)) :
    ∀ (s : PseudoConstnessAnalysisState) (v : Decl),
    v ∈ (foldEval referred L s).Changed ↔ v ∈ s.Changed ∨ disqBy referred L v := by
  induction L with
  | nil => intro s v; simp
  | cons p rest ih =>
    intro s v
    rw [foldEval_cons, ih, Eval_Changed]
    by_cases h : p.1.WasChanged p.2 = true <;>
      simp [h, Finset.mem_union] <;> tauto

/-- Closed form of the candidate set after folding any event sequence:
a declaration is a candidate iff no event disqualifies it and it either
was a candidate already, or it is non-const, not initially disqualified,
and some event evaluates it under a summary that did not change it.
Membership only depends on which events occur, not on their order. -/
theorem mem_Candidates_foldEval (referred : Decl → Finset Decl)
    (L : List (ScopeAnalysis × Decl)) :
    ∀ (s : PseudoConstnessAnalysisState) (v : Decl),
    v ∈ (foldEval referred L s).Candidates ↔
      ¬ disqBy referred L v ∧
        (v ∈ s.Candidates
          ∨ (IsConst v = false ∧ v ∉ s.Changed ∧ seenClean L v)) := by
  induction L with
  | nil => intro s v; simp
  | cons p rest ih =>
    intro s v
    rw [foldEval_cons, ih, Eval_Candidates, Eval_Changed]
    by_cases h : p.1.WasChanged p.2 = true
    · by_cases hv : p.2 = v
      · rw [hv] at h
        simp [hv, h, Finset.mem_sdiff, Finset.mem_union]
        tauto
      · simp [h, hv, Finset.mem_sdiff, Finset.mem_union]
        by_cases hvr : v ∈ referred p.2 <;> simp [hvr]
    · have hf : p.1.WasChanged p.2 = false := by
        cases hb : p.1.WasChanged p.2 <;> simp_all
      by_cases hv : p.2 = v
      · subst hv
        by_cases hb : p.2 ∈ s.Changed
        · simp [h, hf, hb]
        · by_cases hc : IsConst p.2 = true
          · simp [h, hf, hb, hc]
          · have hcf : IsConst p.2 = false := by
              cases hx : IsConst p.2 <;> simp_all
            simp [h, hf, hb, hcf, Finset.mem_insert]
      · by_cases hb : p.2 ∈ s.Changed
        · simp [h, hf, hb, hv]
        · by_cases hc : IsConst p.2 = true
          · simp [h, hf, hb, hc, hv]
          · simp [h, hf, hb, hc, hv, Finset.mem_insert]
            tauto

/-- C3 counterexample: a member access whose base is the
enclosing-instance expression (a use of `this->field`) does not emit a
use; `WasReferenced` stays false for the accessed field. -/
theorem access_traversal_member_counterexample :
    exFld.kind = DeclKind.field
      ∧ (ScopeAnalysis.AnalyseThis (Expr.member Expr.thisE exFld)).WasReferenced
          exFld = false := by
  decide

/-- C3 (amended): the access traversal emits a use exactly for the
direct variable reference expressions whose declaration is a variable or
data member; member accesses, including those whose base is the
enclosing-instance expression, emit no use of their own. -/
theorem access_traversal_characterization (e : Expr) (d : Decl) :
    (ScopeAnalysis.AnalyseThis e).WasReferenced d = mentionsVarRef e d := by
  simpa [ScopeAnalysis.AnalyseThis, ScopeAnalysis.WasReferenced] using
    accessGo_any e d

/-- C4 counterexample: a direct-initialized object construction whose
constructor parameter is a non-const reference does not record a change
against the argument's declaration. -/
theorem construct_call_counterexample :
    IsNonConstReferenced (Ty.ref intTy) = true
      ∧ (ScopeAnalysis.AnalyseThis exCtorCall).WasChanged exCtorArg = false := by
  decide

/-- C4 (amended): the mutation traversal has no rule for constructor
calls; a `construct` node records no change of its own, so the changes
of a constructor call are exactly the changes found inside its argument
subexpressions. -/
theorem construct_node_changes (params : List Ty) (args : ExprList) (d : Decl) :
    (ScopeAnalysis.AnalyseThis (Expr.construct params args)).WasChanged d
      = args.any fun a => (ScopeAnalysis.AnalyseThis a).WasChanged d := by
  simpa [ScopeAnalysis.AnalyseThis, ScopeAnalysis.WasChanged, changeGo] using
    changeGoList_any args d

/-- C6 counterexample: invoking a static member function through a
member access expression does mark the object expression's variable as
changed, because the rule only inspects the member's function type for a
const qualifier and a static member function's type has none. -/
theorem static_member_call_counterexample :
    exStaticMethod.kind = DeclKind.method true
      ∧ (ScopeAnalysis.AnalyseThis exStaticCall).WasChanged exObj2 = true := by
  decide

/-- C6 (amended): the mutation traversal records a change against the
extracted target of a member access exactly when the accessed member's
type is a function prototype that is not const-qualified — whether or
not the member is a static member function. -/
theorem member_expr_change_rule (base : Expr) (mem : Decl) (d : Decl) :
    (ScopeAnalysis.AnalyseThis (Expr.member base mem)).WasChanged d
      = ((memberMutationTest mem.ty
            && ((getUsage (Expr.member base mem)).var == some d))
          || (ScopeAnalysis.AnalyseThis base).WasChanged d) := by
  simp only [ScopeAnalysis.AnalyseThis, ScopeAnalysis.WasChanged, changeGo,
    List.any_append]
  by_cases hm : memberMutationTest mem.ty
  · simp [hm, addToResults_any]
  · simp [hm]

/-- C8 counterexample: the extractor does not report the deepest
variable reference of the walk; on `exLastWins` the unique deepest
reference is `exDeep` (depth 2, every `exShallow` entry is shallower),
yet the reported declaration is `exShallow`. -/
theorem deepest_reference_counterexample :
    (getUsage exLastWins).var = some exShallow
      ∧ exDeep ≠ exShallow
      ∧ (exDeep, 2) ∈ varRefDepths exLastWins 0
      ∧ (∀ q ∈ varRefDepths exLastWins 0, q.1 = exShallow → q.2 < 2) := by
  decide

/-- C8 (amended): the reported declaration is the last variable or
data-member reference encountered by the pre-order walk (not the
deepest); the recorded type is the first type source encountered in
pre-order (a cast's target type, an address-of or dereference result
type, or the reference's own type; the function-call rule installs the
parameter's pointee type by overwriting the extracted type afterwards);
the recorded source range is the full range of the outer expression; and
when the walk binds no declaration, nothing is emitted. -/
theorem usage_extractor_characterization (e : Expr) :
    (getUsage e).var = (varRefList e).getLast?
      ∧ (getUsage e).ty = (typeSources e).head?
      ∧ (getUsage e).range = e
      ∧ (∀ u : Usage, u.var = none → addToResults u = []) := by
  refine ⟨?_, ?_, rfl, ?_⟩
  · simpa [getUsage] using extractVar_go e ⟨none, none⟩
  · simpa [getUsage] using extractTy_go e ⟨none, none⟩
  · intro u hu
    simp [addToResults, hu]

/-- C8 witness: the no-declaration clause of
`usage_extractor_characterization` at a concrete empty extraction. -/
theorem usage_extractor_characterization_witness :
    addToResults exEmptyUsage = [] :=
  (usage_extractor_characterization Expr.thisE).2.2.2 exEmptyUsage rfl

/-- Indexing an argument list succeeds only below its length. -/
theorem ExprList.get?_some_lt : ∀ (es : ExprList) (i : Nat) (a : Expr),
    es.get? i = some a → i < es.length
  | .nil, i, a, h => by simp [ExprList.get?] at h
  | .cons e es, 0, a, h => by simp [ExprList.length]
  | .cons e es, i + 1, a, h => by
      have := ExprList.get?_some_lt es i a h
      simpa [ExprList.length] using Nat.succ_lt_succ this

/-- List indexing succeeds only below the length. -/
theorem listGet?_some_lt {α : Type} : ∀ (l : List α) (i : Nat) (a : α),
    l.get? i = some a → i < l.length
  | [], i, a, h => by simp at h
  | x :: xs, 0, a, h => by simp
  | x :: xs, i + 1, a, h => by
      have := listGet?_some_lt xs i a h
      simpa using Nat.succ_lt_succ this

/-- C5 counterexample: on a member operator call with the object at
argument position 0 and one declared non-const reference parameter, the
loop pairs the object (argument 0) with declared parameter 0 — the
object's variable is marked changed and the declared argument's variable
is not, contradicting the claimed offset of one. -/
theorem operator_call_offset_counterexample :
    exOpFn.params = [Ty.ref intTy]
      ∧ exOpCallArgs.length = 2
      ∧ (ScopeAnalysis.AnalyseThis exOpCall).WasChanged exRhs = false
      ∧ (ScopeAnalysis.AnalyseThis exOpCall).WasChanged exObj = true := by
  decide

/-- C5 (amended): no argument-index offset is applied; for every call
with a direct callee, argument `i` is paired with declared parameter `i`
for `i < min(numArgs, numParams)`.  Whenever parameter `i` is a
non-const reference/pointer, the extracted target of argument `i` is
marked changed; and every change the call node emits arises from such a
pairing — so in a member operator call the object at position 0 is
matched against declared parameter 0 and the final argument is never
checked against any parameter. -/
theorem call_parameter_rule_zero_offset (f : FnDecl) (fn : Expr)
    (args : ExprList) :
    (∀ i a p d, args.get? i = some a → f.params.get? i = some p →
        IsNonConstReferenced p = true → (getUsage a).var = some d →
        (ScopeAnalysis.AnalyseThis (Expr.call (some f) fn args)).WasChanged d
          = true)
    ∧ (∀ x ∈ callNodeChanges f args,
        ∃ i a p, i < min args.length f.params.length
          ∧ args.get? i = some a ∧ f.params.get? i = some p
          ∧ IsNonConstReferenced p = true
          ∧ (getUsage a).var = some x.var ∧ x.ty = some p.getPointeeType) := by
  constructor
  · intro i a p d ha hp hnc hv
    have hmem : (⟨d, some p.getPointeeType, a⟩ : UsageEntry)
        ∈ callNodeChanges f args := by
      refine (mem_callNodeChanges f args _).mpr ⟨i, a, p, ?_, ha, hp, hnc, ?_, rfl, rfl⟩
      · exact lt_min (ExprList.get?_some_lt args i a ha)
          (listGet?_some_lt f.params i p hp)
      · simpa using hv
    simp only [ScopeAnalysis.AnalyseThis, ScopeAnalysis.WasChanged, changeGo,
      List.any_append]
    have : (callNodeChanges f args).any (fun u => u.var == d) = true :=
      List.any_eq_true.mpr ⟨_, hmem, by simp⟩
    simp [this]
  · intro x hx
    rcases (mem_callNodeChanges f args x).mp hx with
      ⟨i, a, p, hilt, ha, hp, hnc, hv, hty, _⟩
    exact ⟨i, a, p, hilt, ha, hp, hnc, hv, hty⟩

/-- C5 witness: at the concrete member operator call, the rule applied
at index 0 pairs the object with declared parameter 0 and marks it
changed. -/
theorem call_parameter_rule_zero_offset_witness :
    IsNonConstReferenced (Ty.ref intTy) = true
      ∧ (ScopeAnalysis.AnalyseThis exOpCall).WasChanged exObj = true := by
  refine ⟨by decide, ?_⟩
  exact (call_parameter_rule_zero_offset exOpFn
      (.declRef exOperator (Ty.funProto false)) exOpCallArgs).1
    0 (.declRef exObj (Ty.base 1 false)) (Ty.ref intTy) exObj
    rfl (by decide) (by decide) (by decide)

/-- Disqualification by a concatenation of event sequences. -/
theorem disqBy_append (referred : Decl → Finset Decl)
    (L M : List (ScopeAnalysis × Decl)) (v : Decl) :
    disqBy referred (L ++ M) v ↔ disqBy referred L v ∨ disqBy referred M v := by
  constructor
  · rintro ⟨p, hp, h⟩
    rcases List.mem_append.mp hp with h1 | h2
    · exact Or.inl ⟨p, h1, h⟩
    · exact Or.inr ⟨p, h2, h⟩
  · rintro (⟨p, hp, h⟩ | ⟨p, hp, h⟩)
    · exact ⟨p, List.mem_append.mpr (Or.inl hp), h⟩
    · exact ⟨p, List.mem_append.mpr (Or.inr hp), h⟩

/-- C1: starting from the empty state, after any sequence of `Eval`
events the candidates and the disqualified set are disjoint; a
declaration disqualified after some events stays disqualified, and out
of the candidates, after any further events; and a declaration whose
declared non-reference type is const-qualified is never a candidate. -/
theorem pseudo_constness_state_invariants (referred : Decl → Finset Decl)
    (L Lmore : List (ScopeAnalysis × Decl)) (v : Decl) :
    Disjoint (foldEval referred L initState).Candidates
        (foldEval referred L initState).Changed
      ∧ (v ∈ (foldEval referred L initState).Changed →
          v ∉ (foldEval referred (L ++ Lmore) initState).Candidates
            ∧ v ∈ (foldEval referred (L ++ Lmore) initState).Changed)
      ∧ (IsConst v = true → v ∉ (foldEval referred L initState).Candidates) := by
  refine ⟨?_, ?_, ?_⟩
  · rw [Finset.disjoint_left]
    intro a ha hb
    rw [mem_Candidates_foldEval] at ha
    rw [mem_Changed_foldEval] at hb
    simp [initState] at ha hb
    exact ha.1 hb
  · intro hv
    rw [mem_Changed_foldEval] at hv
    simp [initState] at hv
    constructor
    · rw [mem_Candidates_foldEval]
      rintro ⟨hnd, -⟩
      exact hnd ((disqBy_append referred L Lmore v).mpr (Or.inl hv))
    · rw [mem_Changed_foldEval]
      exact Or.inr ((disqBy_append referred L Lmore v).mpr (Or.inl hv))
  · intro hconst hmem
    rw [mem_Candidates_foldEval] at hmem
    rcases hmem with ⟨-, hin⟩
    simp [initState, hconst] at hin

/-- C1 witness: the invariants at a concrete run in which a
const-qualified declaration is also mutated. -/
theorem pseudo_constness_state_invariants_witness :
    Disjoint (foldEval referredSelf exEvents initState).Candidates
        (foldEval referredSelf exEvents initState).Changed
      ∧ (exConstVar ∉ (foldEval referredSelf (exEvents ++ exEvents)
            initState).Candidates
          ∧ exConstVar ∈ (foldEval referredSelf (exEvents ++ exEvents)
              initState).Changed)
      ∧ exConstVar ∉ (foldEval referredSelf exEvents initState).Candidates := by
  have h := pseudo_constness_state_invariants referredSelf exEvents exEvents
    exConstVar
  exact ⟨h.1, h.2.1 (by decide), h.2.2 (by decide)⟩

/-- C7: the final candidate and disqualified sets are the same for every
permutation of the evaluation events, hence for every permutation of the
order in which the translation unit's functions are processed. -/
theorem final_verdicts_order_independent (referred : Decl → Finset Decl)
    (L M : List (ScopeAnalysis × Decl)) (hperm : L.Perm M) :
    (foldEval referred L initState).Candidates
        = (foldEval referred M initState).Candidates
      ∧ (foldEval referred L initState).Changed
        = (foldEval referred M initState).Changed := by
  have hd : ∀ w : Decl, disqBy referred L w ↔ disqBy referred M w := by
    intro w
    constructor
    · rintro ⟨p, hp, h⟩; exact ⟨p, hperm.mem_iff.mp hp, h⟩
    · rintro ⟨p, hp, h⟩; exact ⟨p, hperm.mem_iff.mpr hp, h⟩
  have hs : ∀ w : Decl, seenClean L w ↔ seenClean M w := by
    intro w
    constructor
    · rintro ⟨p, hp, h⟩; exact ⟨p, hperm.mem_iff.mp hp, h⟩
    · rintro ⟨p, hp, h⟩; exact ⟨p, hperm.mem_iff.mpr hp, h⟩
  constructor
  · ext w
    rw [mem_Candidates_foldEval, mem_Candidates_foldEval, hd, hs]
  · ext w
    rw [mem_Changed_foldEval, mem_Changed_foldEval, hd]

/-- C7 witness: swapping two concrete events leaves both final sets
unchanged. -/
theorem final_verdicts_order_independent_witness :
    (foldEval referredSelf
        [(exMutSummaryA, exVarA), (exCleanSummary, exVarB)] initState).Candidates
      = (foldEval referredSelf
          [(exCleanSummary, exVarB), (exMutSummaryA, exVarA)] initState).Candidates
    ∧ (foldEval referredSelf
        [(exMutSummaryA, exVarA), (exCleanSummary, exVarB)] initState).Changed
      = (foldEval referredSelf
          [(exCleanSummary, exVarB), (exMutSummaryA, exVarA)] initState).Changed :=
  final_verdicts_order_independent referredSelf _ _
    (List.Perm.swap (exCleanSummary, exVarB) (exMutSummaryA, exVarA) [])

/-- Membership in the pseudo-const-mode report set. -/
theorem mem_Dump (st : PseudoConstnessAnalysisState) (cC sC : Finset Decl)
    (d : Decl) (m : DiagMsg) :
    (d, m) ∈ Dump st cC sC ↔
      d.fromMainFile = true
        ∧ ((m = .varConst ∧ d ∈ st.Candidates)
            ∨ (m = .funcConst ∧ d ∈ cC)
            ∨ (m = .funcStatic ∧ d ∈ sC)) := by
  simp only [Dump, GenerateReports, Finset.mem_union, Finset.mem_image,
    Finset.mem_filter, Prod.mk.injEq]
  aesop

/-- C9: at translation-unit exit in pseudo-const mode, a diagnostic
`(d, m)` is emitted iff `d` lies in the main source file and `d` is in
the set matching the message (variable candidates, const-candidate
methods, static-candidate methods); in particular no diagnostic is
emitted for a declaration outside the main file. -/
theorem pseudo_const_reports_main_file_only
    (st : PseudoConstnessAnalysisState) (cC sC : Finset Decl)
    (d : Decl) (m : DiagMsg) :
    ((d, m) ∈ Dump st cC sC ↔
      d.fromMainFile = true
        ∧ ((m = .varConst ∧ d ∈ st.Candidates)
            ∨ (m = .funcConst ∧ d ∈ cC)
            ∨ (m = .funcStatic ∧ d ∈ sC)))
    ∧ (d.fromMainFile = false → (d, m) ∉ Dump st cC sC) := by
  refine ⟨mem_Dump st cC sC d m, ?_⟩
  intro hout hmem
  have := ((mem_Dump st cC sC d m).mp hmem).1
  rw [hout] at this
  exact Bool.false_ne_true this

/-- C9 witness: at a concrete final state, the main-file candidate is
reported and the out-of-main-file candidate is not. -/
theorem pseudo_const_reports_main_file_only_witness :
    (exOutside, DiagMsg.varConst) ∉ Dump exState ∅ ∅
      ∧ (exInside, DiagMsg.varConst) ∈ Dump exState ∅ ∅ :=
  ⟨(pseudo_const_reports_main_file_only exState ∅ ∅ exOutside .varConst).2 rfl,
   (pseudo_const_reports_main_file_only exState ∅ ∅ exInside .varConst).1.mpr
     (by decide)⟩

/-- C10: a non-const variable that is evaluated at least once and never
appears in any summary's changed or used map (and that no changed
declaration refers to) ends up in `Candidates`, and, when it is declared
in the main file, is reported with the "could be declared as const"
warning — being used is not a precondition for the suggestion. -/
theorem unreferenced_variable_reported (referred : Decl → Finset Decl)
    (L : List (ScopeAnalysis × Decl)) (v : Decl) (cC sC : Finset Decl)
    (a0 : ScopeAnalysis)
    (hkind : v.kind = DeclKind.var)
    (hconst : IsConst v = false)
    (hev : (a0, v) ∈ L)
    (hnochange : ∀ p ∈ L, p.1.WasChanged v = false)
    (hnouse : ∀ p ∈ L, p.1.WasReferenced v = false)
    (hnoref : ∀ p ∈ L, ¬ (p.1.WasChanged p.2 = true ∧ v ∈ referred p.2)) :
    v ∈ (foldEval referred L initState).Candidates
      ∧ (v.fromMainFile = true →
          (v, DiagMsg.varConst) ∈ Dump (foldEval referred L initState) cC sC) := by
  have hcand : v ∈ (foldEval referred L initState).Candidates := by
    rw [mem_Candidates_foldEval]
    refine ⟨?_, Or.inr ⟨hconst, by simp [initState], ⟨(a0, v), hev, rfl,
      hnochange _ hev⟩⟩⟩
    rintro ⟨p, hp, hc, hr⟩
    exact hnoref p hp ⟨hc, hr⟩
  exact ⟨hcand, fun hm =>
    (mem_Dump (foldEval referred L initState) cC sC v .varConst).mpr
      ⟨hm, Or.inl ⟨rfl, hcand⟩⟩⟩

/-- C10 witness: a variable evaluated once under an empty summary is a
candidate and is reported. -/
theorem unreferenced_variable_reported_witness :
    IsConst exUnused = false
      ∧ exUnused ∈ (foldEval referredSelf [(exCleanSummary, exUnused)]
          initState).Candidates
      ∧ (exUnused, DiagMsg.varConst) ∈ Dump
          (foldEval referredSelf [(exCleanSummary, exUnused)] initState) ∅ ∅ := by
  have h := unreferenced_variable_reported referredSelf
    [(exCleanSummary, exUnused)] exUnused ∅ ∅ exCleanSummary
    (by decide) (by decide) (List.mem_cons_self _ _)
    (by decide) (by decide) (by decide)
  exact ⟨by decide, h.1, h.2 (by decide)⟩

/-- Reduction of `OnCXXMethodDecl` once the outer plain-method guard and
the zero-mutation test hold: only the static/const decision remains. -/
theorem OnCXXMethodDecl_eq (F : CXXMethodDecl) (body : Expr)
    (members : List Decl) (peers : List CXXMethodDecl)
    (hguard : (!F.isVirtual && !F.isStatic && F.isUserProvided
        && IsJustAMethod F) = true)
    (hzero : ((members.filter
          fun v => (ScopeAnalysis.AnalyseThis body).WasChanged v).length == 0
        && (((peers.filter IsMutatingMethod).filter
            fun m => (ScopeAnalysis.AnalyseThis body).WasReferenced
              m.decl).length == 0)) = true) :
    OnCXXMethodDecl F body members peers =
      if ((members.filter
            fun v => (ScopeAnalysis.AnalyseThis body).WasReferenced v).length
              == 0
          && (((peers.filter IsMemberMethod).filter
              fun m => (ScopeAnalysis.AnalyseThis body).WasReferenced
                m.decl).length == 0)
          && !IsCXXThisExpr.Check body) = true
      then .staticCandidate
      else if F.isConst = false then .constCandidate else .noCandidate := by
  unfold OnCXXMethodDecl
  rw [if_pos hguard, if_pos hzero]
  rcases h : F.isConst <;> simp [h]

/-- C2: for a plain (user-provided, non-virtual, non-static) instance
method whose summary shows zero changed member variables and zero
referenced mutating peer methods — if additionally the summary
references no member variable, references no non-static peer method and
the body does not mention the enclosing-instance expression, the method
becomes a static candidate (even when it is already const-qualified);
otherwise it becomes a const candidate iff it is not const-qualified. -/
theorem method_classification (F : CXXMethodDecl) (body : Expr)
    (members : List Decl) (peers : List CXXMethodDecl)
    (hUser : F.isUserProvided = true) (hVirt : F.isVirtual = false)
    (hStat : F.isStatic = false) (hJust : IsJustAMethod F = true)
    (hMemCh : (members.filter
        fun v => (ScopeAnalysis.AnalyseThis body).WasChanged v).length = 0)
    (hFunCh : ((peers.filter IsMutatingMethod).filter
        fun m => (ScopeAnalysis.AnalyseThis body).WasReferenced m.decl).length
          = 0) :
    (((members.filter
          fun v => (ScopeAnalysis.AnalyseThis body).WasReferenced v).length = 0
        ∧ ((peers.filter IsMemberMethod).filter
            fun m => (ScopeAnalysis.AnalyseThis body).WasReferenced
              m.decl).length = 0
        ∧ IsCXXThisExpr.Check body = false) →
      OnCXXMethodDecl F body members peers = .staticCandidate)
    ∧ (¬ ((members.filter
          fun v => (ScopeAnalysis.AnalyseThis body).WasReferenced v).length = 0
        ∧ ((peers.filter IsMemberMethod).filter
            fun m => (ScopeAnalysis.AnalyseThis body).WasReferenced
              m.decl).length = 0
        ∧ IsCXXThisExpr.Check body = false) →
      (OnCXXMethodDecl F body members peers = .constCandidate
        ↔ F.isConst = false)) := by
  have hguard : (!F.isVirtual && !F.isStatic && F.isUserProvided
      && IsJustAMethod F) = true := by
    simp [hUser, hVirt, hStat, hJust]
  have hzero : ((members.filter
        fun v => (ScopeAnalysis.AnalyseThis body).WasChanged v).length == 0
      && (((peers.filter IsMutatingMethod).filter
          fun m => (ScopeAnalysis.AnalyseThis body).WasReferenced
            m.decl).length == 0)) = true := by
    rw [hMemCh, hFunCh]
    rfl
  rw [OnCXXMethodDecl_eq F body members peers hguard hzero]
  constructor
  · rintro ⟨hma, hfa, hth⟩
    rw [if_pos (show _ = true by rw [hma, hfa, hth]; rfl)]
  · intro hns
    have hcond : ((members.filter
          fun v => (ScopeAnalysis.AnalyseThis body).WasReferenced v).length
            == 0
        && (((peers.filter IsMemberMethod).filter
            fun m => (ScopeAnalysis.AnalyseThis body).WasReferenced
              m.decl).length == 0)
        && !IsCXXThisExpr.Check body) = false := by
      by_cases hma : (members.filter
          fun v => (ScopeAnalysis.AnalyseThis body).WasReferenced v).length = 0
      · by_cases hfa : ((peers.filter IsMemberMethod).filter
            fun m => (ScopeAnalysis.AnalyseThis body).WasReferenced
              m.decl).length = 0
        · by_cases hth : IsCXXThisExpr.Check body = false
          · exact absurd ⟨hma, hfa, hth⟩ hns
          · have hth' : IsCXXThisExpr.Check body = true := by
              rcases h : IsCXXThisExpr.Check body
              · exact absurd h hth
              · rfl
            rw [hma, hfa, hth']
            rfl
        · simp only [beq_eq_false_iff_ne.mpr hfa, Bool.and_false,
            Bool.false_and]
      · simp only [beq_eq_false_iff_ne.mpr hma, Bool.false_and]
    rw [if_neg (by intro h; rw [hcond] at h; exact Bool.false_ne_true h)]
    rcases hic : F.isConst <;> simp [hic]

/-- C2 witness: a concrete plain method with no members, no peers and a
body that does not mention the enclosing instance is classified as a
static candidate. -/
theorem method_classification_witness :
    IsJustAMethod exMethod = true
      ∧ OnCXXMethodDecl exMethod (Expr.declRef exVarA intTy) [] []
          = MethodOutcome.staticCandidate := by
  have h := method_classification exMethod (Expr.declRef exVarA intTy) [] []
    (by decide) (by decide) (by decide) (by decide) (by decide) (by decide)
  exact ⟨by decide, h.1 ⟨by decide, by decide, by decide⟩⟩
